import Mathlib

/-!
Verification of the NeuronLabs git-workflow engine (`bots/git-workflow/git_bot.py`).

The Python module drives an external `git` process through a command executor
and contains the decision logic for conventional commits, semantic-version
resolution and bumping, merge-strategy orchestration, and repository-status
aggregation.  This file gives a shallow embedding of that logic: Python strings
become `List Char`, the command executor becomes an explicit function
`List Char → ExecResult`, and every handler is a pure Lean function recording
the commands it issues together with its structured result.
-/

namespace GitBot

/-- Single quote character, used when synthesizing shell command strings. -/
def sq : Char := Char.ofNat 39

/-! ## Python string primitives -/

/-- Python substring test `p in s` over char lists. -/
def containsPat (p : List Char) (s : List Char) : Bool :=
  match s with
  | [] => p.isEmpty
  | c :: rest => p.isPrefixOf (c :: rest) || containsPat p rest

/-- Python `s.split(chr(10))` for a (possibly empty) char list: always returns at
least one piece; pieces do not contain the separator. -/
def splitNl : List Char → List (List Char)
  | [] => [[]]
  | c :: rest =>
    match splitNl rest with
    | [] => [[c]]
    | l :: ls => if c = '\n' then [] :: l :: ls else (c :: l) :: ls

/-- Join a list of lines with a newline separator; inverse of `splitNl` on
newline-free lines.  Models the raw multi-line output of `git log`. -/
def joinLines : List (List Char) → List Char
  | [] => []
  | [s] => s
  | s :: r :: rest => s ++ '\n' :: joinLines (r :: rest)

/-! ## Semantic versions (`auto_version_bump`, lines 298-337) -/

structure SemanticVersion where
  major : Nat
  minor : Nat
  patch : Nat
deriving DecidableEq, Repr

/-- Longest leading run of decimal digits, with the remainder. -/
def takeDigits : List Char → List Char × List Char
  | [] => ([], [])
  | c :: rest =>
    if c.isDigit then
      let p := takeDigits rest
      (c :: p.1, p.2)
    else ([], c :: rest)

/-- Decimal value of a digit run. -/
def digitsVal (ds : List Char) : Nat :=
  ds.foldl (fun n c => 10 * n + (c.toNat - 48)) 0

/-- Parse a leading `v(\d+)\.(\d+)\.(\d+)` and return the version together with
the unconsumed remainder.  This models Python `re.match` of that pattern, which
anchors at the start only. -/
def parseVer3 (s : List Char) : Option (SemanticVersion × List Char) :=
  match s with
  | [] => none
  | c :: r0 =>
    if c = 'v' then
      let p1 := takeDigits r0
      if p1.1.isEmpty then none else
      match p1.2 with
      | '.' :: r2 =>
        let p2 := takeDigits r2
        if p2.1.isEmpty then none else
        match p2.2 with
        | '.' :: r4 =>
          let p3 := takeDigits r4
          if p3.1.isEmpty then none else
          some (⟨digitsVal p1.1, digitsVal p2.1, digitsVal p3.1⟩, p3.2)
        | _ => none
      | _ => none
    else none

/-- `re.match(r'v(\d+)\.(\d+)\.(\d+)', s)`: succeeds on any string beginning
with the pattern, ignoring trailing characters (git_bot.py line 306). -/
def parseVersion (s : List Char) : Option SemanticVersion :=
  match parseVer3 s with
  | some p => some p.1
  | none => none

/-- A tag in the canonical full form `v{major}.{minor}.{patch}` with nothing
after the patch component (the specification's notion of a valid tag). -/
def parseVersionCanon (s : List Char) : Option SemanticVersion :=
  match parseVer3 s with
  | some (v, []) => some v
  | _ => none

/-- Lexicographic maximum on (major, minor, patch). -/
def verMax (a b : SemanticVersion) : SemanticVersion :=
  if a.major < b.major then b
  else if b.major < a.major then a
  else if a.minor < b.minor then b
  else if b.minor < a.minor then a
  else if a.patch < b.patch then b
  else a

/-- Python `tag.startswith(chr(118))`, i.e. starts with `v` (line 302). -/
def startsWithV (l : List Char) : Bool := "v".data.isPrefixOf l

/-- Current-version tag selection (lines 302-303): the first listed tag that
starts with `v`, defaulting to `v0.0.0`. -/
def resolveCurrentTag (lines : List (List Char)) : List Char :=
  match lines.filter startsWithV with
  | [] => "v0.0.0".data
  | t :: _ => t

inductive ResolveResult where
  | ok (v : SemanticVersion)
  | err (msg : List Char)
deriving DecidableEq, Repr

/-- Version resolution as implemented (lines 302-310): select the current tag,
then parse it; a selected tag that does not match the version pattern is an
error, mirroring the `Invalid current version format` return. -/
def resolveCurrent (lines : List (List Char)) : ResolveResult :=
  let current := resolveCurrentTag lines
  match parseVersion current with
  | some v => ResolveResult.ok v
  | none => ResolveResult.err ("Invalid current version format: ".data ++ current)

/-- Specification-side resolution, following the specification text: filter the
tags to those in canonical form, parse each, and return the lexicographic
maximum, or `0.0.0` when no tag is valid.  Stated only to compare with the
implemented `resolveCurrent`. -/
def resolveCurrentSpec (lines : List (List Char)) : SemanticVersion :=
  ((lines.filterMap parseVersionCanon).foldl verMax ⟨0, 0, 0⟩)

/-- Version bumping (lines 326-335): the bump type is an open string; a string
outside the three known cases leaves the version unchanged. -/
def bump (v : SemanticVersion) (bt : List Char) : SemanticVersion :=
  if bt = "major".data then ⟨v.major + 1, 0, 0⟩
  else if bt = "minor".data then ⟨v.major, v.minor + 1, 0⟩
  else if bt = "patch".data then ⟨v.major, v.minor, v.patch + 1⟩
  else v

/-- Decimal rendering of a natural number. -/
def natChars (n : Nat) : List Char := (Nat.repr n).data

/-- `f"v{major}.{minor}.{patch}"` (line 337). -/
def renderVersion (v : SemanticVersion) : List Char :=
  'v' :: (natChars v.major ++ '.' :: (natChars v.minor ++ '.' :: natChars v.patch))

/-! ## Bump policy inference (`auto_version_bump`, lines 313-324)

The implementation inspects the whole `git log --oneline` output as one string:
`'BREAKING CHANGE' in commits or re.search(r'\w+!:', commits)` decides a major
bump, `re.search(r'feat[\(\:]', commits)` a minor bump, otherwise patch. -/

/-- Python `\w`: ASCII word character (the classes relevant here). -/
def isWordChar (c : Char) : Bool := c.isAlphanum || c = '_'

/-- Head match for `\w+!:` at one position: a word character followed by `!:`.
A match of `\w+!:` exists in a string iff some position matches this (take the
last character of the `\w+` run). -/
def matchBC (s : List Char) : Bool :=
  match s with
  | c1 :: c2 :: c3 :: _ => isWordChar c1 && (c2 == '!') && (c3 == ':')
  | _ => false

/-- `re.search(r'\w+!:', s)` as a scan over all suffixes. -/
def hasBangColon (s : List Char) : Bool :=
  match s with
  | [] => false
  | c :: rest => matchBC (c :: rest) || hasBangColon rest

/-- `'BREAKING CHANGE' in s` (line 317). -/
def containsBC (s : List Char) : Bool := containsPat "BREAKING CHANGE".data s

/-- `re.search(r'feat[\(\:]', s)` (line 319). -/
def hasFeat (s : List Char) : Bool :=
  containsPat "feat(".data s || containsPat "feat:".data s

/-- The three-tier classifier of lines 317-322 over the raw log text. -/
def inferFromLog (log : List Char) : List Char :=
  if containsBC log || hasBangColon log then "major".data
  else if hasFeat log then "minor".data
  else "patch".data

/-! ## Commit message builder (`commit_changes`, lines 132-141) -/

/-- `f"({scope})" if scope else ""`. -/
def scopePart (scope : List Char) : List Char :=
  if scope = [] then [] else '(' :: (scope ++ [')'])

/-- The first line `{type}{scope_part}{breaking_part}: {description}`. -/
def commitHeader (ctype scope descr : List Char) (breaking : Bool) : List Char :=
  ctype ++ scopePart scope ++ (if breaking then ['!'] else []) ++ (':' :: ' ' :: descr)

/-- Full rendered conventional-commit message (lines 132-141): header, then an
optional body paragraph, then a `BREAKING CHANGE` trailer repeating the
description when `breaking` is set. -/
def buildCommitMsg (ctype scope descr body : List Char) (breaking : Bool) : List Char :=
  let m1 := commitHeader ctype scope descr breaking
  let m2 := if body = [] then m1 else m1 ++ '\n' :: '\n' :: body
  if breaking then m2 ++ ('\n' :: '\n' :: ("BREAKING CHANGE: ".data ++ descr)) else m2

/-! ## The command executor boundary -/

/-- Result of running one external command: success flag, stdout, stderr
(`run_git_command`). -/
structure ExecResult where
  success : Bool
  output : List Char
  error : List Char
deriving DecidableEq, Repr

/-- A deterministic command executor: the environment answering each command
string.  Handlers are modeled as functions of the executor that record the
command strings they issue, in order. -/
abbrev Exec := List Char → ExecResult

/-! ## Merge orchestrator (`merge_branch`, lines 166-209) -/

def checkoutCmd (target : List Char) : List Char := "git checkout ".data ++ target

def squashMergeCmd (source : List Char) : List Char := "git merge --squash ".data ++ source

def rebaseCmd (source : List Char) : List Char := "git rebase ".data ++ source

def plainMergeCmd (source : List Char) : List Char := "git merge ".data ++ source

/-- Strategy dispatch of lines 185-190: `squash` and `rebase` are recognized,
every other strategy string falls to a plain merge. -/
def mergeCmdFor (strategy source : List Char) : List Char :=
  if strategy = "squash".data then squashMergeCmd source
  else if strategy = "rebase".data then rebaseCmd source
  else plainMergeCmd source

/-- `git commit -m 'Merge {source} into {target}'` (line 199). -/
def squashCommitCmd (source target : List Char) : List Char :=
  "git commit -m ".data ++ sq :: ("Merge ".data ++ source ++ " into ".data ++ target) ++ [sq]

/-- A command is a commit command when it starts with `git commit`. -/
def isCommitCmd (c : List Char) : Bool := "git commit".data.isPrefixOf c

inductive MergeResult where
  | ok (source target strategy output : List Char)
  | err (msg : List Char)
deriving DecidableEq, Repr

/-- `merge_branch` (lines 166-209): validation, checkout of the target, the
strategy-specific merge command, and for squash an extra explicit commit.
Returns the issued commands in order together with the structured result. -/
def merge_branch (isRepo : Bool) (exec : Exec) (source target strategy : List Char) :
    List (List Char) × MergeResult :=
  if source = [] then ([], MergeResult.err "Source branch required".data)
  else if isRepo = false then ([], MergeResult.err "Not a git repository".data)
  else
    let co := exec (checkoutCmd target)
    if co.success = false then
      ([checkoutCmd target],
        MergeResult.err ("Failed to switch to ".data ++ target ++ ": ".data ++ co.error))
    else
      let mcmd := mergeCmdFor strategy source
      let mr := exec mcmd
      if mr.success = false then
        ([checkoutCmd target, mcmd], MergeResult.err ("Merge failed: ".data ++ mr.error))
      else if strategy = "squash".data then
        let cc := exec (squashCommitCmd source target)
        if cc.success = false then
          ([checkoutCmd target, mcmd, squashCommitCmd source target],
            MergeResult.err ("Failed to commit squash merge: ".data ++ cc.error))
        else
          ([checkoutCmd target, mcmd, squashCommitCmd source target],
            MergeResult.ok source target strategy mr.output)
      else ([checkoutCmd target, mcmd], MergeResult.ok source target strategy mr.output)

/-- Branch-name validity rule of `create_branch` (line 98):
`re.match(r'^[a-zA-Z0-9/_-]+$', branch_name)`. -/
def isBranchChar (c : Char) : Bool :=
  (('a' ≤ c && c ≤ 'z') || ('A' ≤ c && c ≤ 'Z') || ('0' ≤ c && c ≤ '9')
    || c == '/' || c == '_' || c == '-')

def validBranchName (s : List Char) : Bool := !s.isEmpty && s.all isBranchChar

/-! ## Repository state aggregator (`get_repo_status`, lines 253-262) -/

structure Changes where
  modified : List (List Char)
  added : List (List Char)
  deleted : List (List Char)
  untracked : List (List Char)
deriving DecidableEq, Repr

/-- The four recognized two-character status prefixes. -/
def isRecognizedLine (l : List Char) : Bool :=
  " M".data.isPrefixOf l || "A ".data.isPrefixOf l
    || " D".data.isPrefixOf l || "??".data.isPrefixOf l

/-- Bucket classification of lines 256-261: each bucket filters on its
two-character prefix and drops the first three characters of the line. -/
def classifyChanges (lines : List (List Char)) : Changes :=
  { modified := (lines.filter (fun l => " M".data.isPrefixOf l)).map (fun l => l.drop 3)
    added := (lines.filter (fun l => "A ".data.isPrefixOf l)).map (fun l => l.drop 3)
    deleted := (lines.filter (fun l => " D".data.isPrefixOf l)).map (fun l => l.drop 3)
    untracked := (lines.filter (fun l => "??".data.isPrefixOf l)).map (fun l => l.drop 3) }

/-- Status aggregation of lines 253-262: split the porcelain output into lines
(empty output gives no lines), classify buckets, and set `clean` from the raw
line count (`len(lines) == 0`). -/
def get_repo_status_changes (output : List Char) : Changes × Bool :=
  let lines := if output.isEmpty then [] else splitNl output
  (classifyChanges lines, lines.isEmpty)

/-! ## Automated version bump (`auto_version_bump`, lines 289-349) -/

def tagListCmd : List Char := "git tag -l --sort=-version:refname".data

def recentLogCmd : List Char :=
  "git log --oneline --since=".data ++ sq :: ("1 week ago".data ++ [sq])

def releaseTagCmd (v : List Char) : List Char :=
  "git tag -a ".data ++ v ++ " -m ".data ++ sq :: ("Release ".data ++ v ++ [sq])

/-- Lines 298-303: the current-version tag string, `v0.0.0` when the tag
listing fails, otherwise the first listed tag starting with `v`. -/
def currentTagOf (exec : Exec) : List Char :=
  let tr := exec tagListCmd
  if tr.success then resolveCurrentTag (splitNl tr.output) else "v0.0.0".data

/-- Lines 313-324: the effective bump type; `auto` is replaced by the inferred
type from the recent log (patch when the log query fails). -/
def effectiveBumpType (exec : Exec) (bt : List Char) : List Char :=
  if bt = "auto".data then
    let lr := exec recentLogCmd
    if lr.success then inferFromLog lr.output else "patch".data
  else bt

structure VersionBumpOk where
  previous : List Char
  new_version : List Char
  bump_type : List Char
deriving DecidableEq, Repr

inductive BumpResult where
  | ok (r : VersionBumpOk)
  | err (msg : List Char)
deriving DecidableEq, Repr

/-- `auto_version_bump` (lines 289-349): resolve the current tag, parse it
(failing on a malformed selected tag), infer the bump type when `auto`,
compute the new version, and attempt the release tag. -/
def auto_version_bump (isRepo : Bool) (exec : Exec) (bt : List Char) :
    List (List Char) × BumpResult :=
  if isRepo = false then ([], BumpResult.err "Not a git repository".data)
  else
    let current := currentTagOf exec
    match parseVersion current with
    | none => ([tagListCmd], BumpResult.err ("Invalid current version format: ".data ++ current))
    | some v =>
      let cmds0 := if bt = "auto".data then [tagListCmd, recentLogCmd] else [tagListCmd]
      let bt2 := effectiveBumpType exec bt
      let newv := renderVersion (bump v bt2)
      let tg := exec (releaseTagCmd newv)
      if tg.success then (cmds0 ++ [releaseTagCmd newv], BumpResult.ok ⟨current, newv, bt2⟩)
      else (cmds0 ++ [releaseTagCmd newv],
        BumpResult.err ("Failed to create version tag: ".data ++ tg.error))

/-! ## Stub executors used for concrete runs -/

/-- An executor on which every command succeeds with empty output. -/
def allOk : Exec := fun _ => ⟨true, [], []⟩

/-- An executor failing exactly one designated command with the given stderr. -/
def execStub (failCmd errText : List Char) : Exec :=
  fun c => if c = failCmd then ⟨false, [], errText⟩ else ⟨true, [], []⟩

/-- An executor answering the tag-listing command with the given output and
succeeding with empty output on everything else. -/
def execTags (tagsOut : List Char) : Exec :=
  fun c => if c = tagListCmd then ⟨true, tagsOut, []⟩ else ⟨true, [], []⟩

/-! ## Lemmas: substring search distributes over newline-joined windows -/

theorem pfx_append_sep : ∀ (p a b : List Char), '\n' ∉ p →
    p.isPrefixOf (a ++ '\n' :: b) = p.isPrefixOf a
  | [], a, _, _ => by simp [List.isPrefixOf]
  | c :: p2, [], b, hp => by
    have hcne : (c == '\n') = false := by
      have h1 : c ≠ '\n' := by
        intro h
        exact hp (h ▸ List.mem_cons_self c p2)
      simp [h1]
    simp [List.isPrefixOf, hcne]
  | c :: p2, x :: a2, b, hp => by
    have hp2 : '\n' ∉ p2 := fun h => hp (List.mem_cons_of_mem _ h)
    simp only [List.cons_append, List.isPrefixOf, List.append_eq]
    rw [ pfx_append_sep p2 a2 b hp2]

theorem containsPat_append_sep (p a b : List Char) (hp : '\n' ∉ p) :
    containsPat p (a ++ '\n' :: b) = (containsPat p a || containsPat p b) := by
  induction a with
  | nil =>
    cases p with
    | nil => simp [containsPat, List.isPrefixOf, List.isEmpty]
    | cons c p2 =>
      have hcne : (c == '\n') = false := by
        have h1 : c ≠ '\n' := by
          intro h
          exact hp (h ▸ List.mem_cons_self c p2)
        simp [h1]
      simp [containsPat, List.isPrefixOf, List.isEmpty, hcne]
  | cons x a2 ih =>
    simp only [List.cons_append, containsPat, List.append_eq]
    rw [show x :: (a2 ++ '\n' :: b) = (x :: a2) ++ '\n' :: b from rfl]
    rw [ pfx_append_sep p (x :: a2) b hp, ih, Bool.or_assoc]

theorem containsPat_join (p : List Char) (hp : '\n' ∉ p) (hne : p ≠ []) :
    ∀ L : List (List Char), containsPat p (joinLines L) = L.any (containsPat p)
  | [] => by
    cases p with
    | nil => exact absurd rfl hne
    | cons c p2 => simp [joinLines, containsPat, List.isEmpty]
  | [s] => by simp [joinLines]
  | s :: r :: rest => by
    rw [show joinLines (s :: r :: rest) = s ++ '\n' :: joinLines (r :: rest) from rfl]
    rw [containsPat_append_sep p s _ hp, containsPat_join p hp hne (r :: rest)]
    simp [List.any_cons]

theorem matchBC_append_sep (x : Char) (a b : List Char) :
    matchBC (x :: a ++ '\n' :: b) = matchBC (x :: a) := by
  cases a with
  | nil =>
    cases b with
    | nil => simp [matchBC]
    | cons c bs => simp [matchBC]
  | cons y a2 =>
    cases a2 with
    | nil => simp [matchBC]
    | cons z a3 => rfl

theorem hasBangColon_append_sep (a b : List Char) :
    hasBangColon (a ++ '\n' :: b) = (hasBangColon a || hasBangColon b) := by
  induction a with
  | nil =>
    have hm : ∀ s : List Char, matchBC ('\n' :: s) = false := by
      intro s
      cases s with
      | nil => rfl
      | cons c bs =>
        cases bs with
        | nil => rfl
        | cons d cs => simp [matchBC, isWordChar]
    simp [hasBangColon, hm]
  | cons x a2 ih =>
    simp only [List.cons_append, hasBangColon, List.append_eq]
    rw [show x :: (a2 ++ '\n' :: b) = (x :: a2) ++ '\n' :: b from rfl]
    rw [matchBC_append_sep x a2 b, ih, Bool.or_assoc]

theorem hasBangColon_join :
    ∀ L : List (List Char), hasBangColon (joinLines L) = L.any hasBangColon
  | [] => rfl
  | [s] => by simp [joinLines]
  | s :: r :: rest => by
    rw [show joinLines (s :: r :: rest) = s ++ '\n' :: joinLines (r :: rest) from rfl]
    rw [hasBangColon_append_sep s _, hasBangColon_join (r :: rest)]
    simp [List.any_cons]

theorem any_or_split {α : Type} (p q : α → Bool) (l : List α) :
    l.any (fun a => p a || q a) = (l.any p || l.any q) := by
  induction l with
  | nil => rfl
  | cons a l2 ih =>
    simp only [List.any_cons, ih]
    cases p a <;> cases q a <;> simp

/-! ## Claim theorems -/

/-- C2: for every ordered sequence of commit subjects, bump-policy inference
over the joined log window scans the entire window: it returns `major` whenever
any subject (at any position) contains the literal `BREAKING CHANGE` marker or
a word character followed by `!:`; otherwise `minor` if any subject contains a
`feat(`/`feat:` pattern; otherwise `patch`. -/
theorem infer_whole_window (subjects : List (List Char)) :
    inferFromLog (joinLines subjects) =
      (if subjects.any (fun s => containsBC s || hasBangColon s) then "major".data
       else if subjects.any hasFeat then "minor".data
       else "patch".data) := by
  have h1 : containsPat "BREAKING CHANGE".data (joinLines subjects)
      = subjects.any (containsPat "BREAKING CHANGE".data) :=
    containsPat_join _ (by decide) (by decide) subjects
  have h2 : containsPat "feat(".data (joinLines subjects)
      = subjects.any (containsPat "feat(".data) :=
    containsPat_join _ (by decide) (by decide) subjects
  have h3 : containsPat "feat:".data (joinLines subjects)
      = subjects.any (containsPat "feat:".data) :=
    containsPat_join _ (by decide) (by decide) subjects
  have h4 := hasBangColon_join subjects
  have h5 : subjects.any hasFeat
      = subjects.any (fun s => containsPat "feat(".data s || containsPat "feat:".data s) := rfl
  simp only [inferFromLog, containsBC, hasFeat, h1, h2, h3, h4, h5]
  rw [← any_or_split, ← any_or_split]

/-- C3: the rendered conventional-commit message follows the fixed layout
`{type}({scope})?{!}: {description}` with optional body paragraph and, when
breaking, a trailing `BREAKING CHANGE: {description}` duplicating the
description; in particular the two documented examples render as stated. -/
theorem commit_message_layout :
    buildCommitMsg "fix".data "auth".data "handle null token".data [] false
        = "fix(auth): handle null token".data ∧
    buildCommitMsg "feat".data [] "x".data [] true
        = "feat!: x\n\nBREAKING CHANGE: x".data ∧
    (∀ ctype scope descr body : List Char, ∀ brk : Bool,
      ∃ tail, buildCommitMsg ctype scope descr body brk
        = commitHeader ctype scope descr brk ++ tail) ∧
    (∀ ctype scope descr body : List Char,
      ∃ front, buildCommitMsg ctype scope descr body true
        = front ++ ("BREAKING CHANGE: ".data ++ descr)) ∧
    (∀ ctype scope descr : List Char,
      buildCommitMsg ctype scope descr [] false = commitHeader ctype scope descr false) := by
  refine ⟨by decide, by decide, ?_, ?_, ?_⟩
  · intro ctype scope descr body brk
    refine ⟨(if body = [] then [] else '\n' :: '\n' :: body)
      ++ (if brk then '\n' :: '\n' :: ("BREAKING CHANGE: ".data ++ descr) else []), ?_⟩
    simp only [buildCommitMsg]
    by_cases hb : body = [] <;> cases brk <;> simp [hb, List.append_assoc]
  · intro ctype scope descr body
    refine ⟨(if body = [] then commitHeader ctype scope descr true
      else commitHeader ctype scope descr true ++ '\n' :: '\n' :: body) ++ ['\n', '\n'], ?_⟩
    simp only [buildCommitMsg]
    by_cases hb : body = [] <;> simp [hb, List.append_assoc]
  · intro ctype scope descr
    simp [buildCommitMsg]

/-- C8: applying the patch bump N ≥ 1 times increments the patch component by
N and leaves the major and minor components unchanged. -/
theorem patch_bump_composition (v : SemanticVersion) (N : Nat) (_h : 1 ≤ N) :
    (fun w => bump w "patch".data)^[N] v = ⟨v.major, v.minor, v.patch + N⟩ := by
  clear _h
  induction N generalizing v with
  | zero => simp
  | succ n ih =>
    rw [Function.iterate_succ_apply]
    have hb : ∀ w : SemanticVersion, bump w "patch".data = ⟨w.major, w.minor, w.patch + 1⟩ :=
      fun w => rfl
    rw [hb, ih]
    have : v.patch + 1 + n = v.patch + (n + 1) := by omega
    rw [this]

/-- C8 witness: two patch bumps from 1.2.3 give 1.2.5. -/
theorem patch_bump_composition_witness :
    (fun w => bump w "patch".data)^[2] (⟨1, 2, 3⟩ : SemanticVersion) = ⟨1, 2, 3 + 2⟩ :=
  patch_bump_composition ⟨1, 2, 3⟩ 2 (by decide)

/-! ## Lemmas: command-string classification -/

theorem isCommitCmd_checkout (t : List Char) : isCommitCmd (checkoutCmd t) = false := rfl

theorem isCommitCmd_squashMerge (s : List Char) : isCommitCmd (squashMergeCmd s) = false := rfl

theorem isCommitCmd_rebase (s : List Char) : isCommitCmd (rebaseCmd s) = false := rfl

theorem isCommitCmd_plainMerge (s : List Char) : isCommitCmd (plainMergeCmd s) = false := rfl

theorem isCommitCmd_squashCommit (s t : List Char) :
    isCommitCmd (squashCommitCmd s t) = true := rfl

/-- C4: with squash strategy (on a successful checkout and merge) the
orchestrator issues exactly one extra commit command, placed after the merge
step and carrying the synthesized `Merge {source} into {target}` message; with
merge or rebase strategy no commit command is ever issued. -/
theorem merge_squash_extra_commit (exec : Exec) (source target : List Char)
    (hs : source ≠ [])
    (hc : (exec (checkoutCmd target)).success = true)
    (hm : (exec (squashMergeCmd source)).success = true) :
    (merge_branch true exec source target "squash".data).1
        = [checkoutCmd target, squashMergeCmd source, squashCommitCmd source target] ∧
    (merge_branch true exec source target "squash".data).1.filter isCommitCmd
        = [squashCommitCmd source target] ∧
    (∀ exec2 : Exec, ∀ strategy : List Char,
      strategy = "merge".data ∨ strategy = "rebase".data →
      (merge_branch true exec2 source target strategy).1.filter isCommitCmd = []) := by
  have hcmds : (merge_branch true exec source target "squash".data).1
      = [checkoutCmd target, squashMergeCmd source, squashCommitCmd source target] := by
    simp only [merge_branch, mergeCmdFor, if_neg hs, hc, hm]
    cases hcc : (exec (squashCommitCmd source target)).success <;> simp [hm]
  refine ⟨hcmds, ?_, ?_⟩
  · rw [hcmds]
    simp [List.filter, isCommitCmd_checkout, isCommitCmd_squashMerge, isCommitCmd_squashCommit]
  · intro exec2 strategy hst
    have hmc : mergeCmdFor strategy source = plainMergeCmd source
        ∨ mergeCmdFor strategy source = rebaseCmd source := by
      rcases hst with h | h <;> subst h <;> simp [mergeCmdFor]
    have hnsq : strategy ≠ "squash".data := by
      rcases hst with h | h <;> subst h <;> decide
    simp only [merge_branch, if_neg hs, if_neg hnsq]
    cases h1 : (exec2 (checkoutCmd target)).success
    · simp [isCommitCmd_checkout]
    · cases h2 : (exec2 (mergeCmdFor strategy source)).success <;>
        rcases hmc with h3 | h3 <;>
          simp [h3, hnsq, isCommitCmd_checkout, isCommitCmd_plainMerge, isCommitCmd_rebase]

/-- C4 witness: a concrete squash merge issues checkout, squash merge, and the
synthesized commit, in that order. -/
theorem merge_squash_extra_commit_witness :
    (merge_branch true allOk "feature".data "main".data "squash".data).1
        = [checkoutCmd "main".data, squashMergeCmd "feature".data,
           squashCommitCmd "feature".data "main".data] :=
  (merge_squash_extra_commit allOk "feature".data "main".data
    (by decide) (by decide) (by decide)).1

/-- C10: any strategy string other than `squash` and `rebase` (including
unrecognized values) performs a plain merge; an unrecognized strategy is never
rejected with a validation error — the result is the plain-merge outcome. -/
theorem merge_unknown_strategy_plain (exec : Exec) (source target strategy : List Char)
    (hs : source ≠ []) (h1 : strategy ≠ "squash".data) (h2 : strategy ≠ "rebase".data)
    (hc : (exec (checkoutCmd target)).success = true) :
    (merge_branch true exec source target strategy).1
        = [checkoutCmd target, plainMergeCmd source] ∧
    (merge_branch true exec source target strategy).2
        = (if (exec (plainMergeCmd source)).success = true
           then MergeResult.ok source target strategy (exec (plainMergeCmd source)).output
           else MergeResult.err ("Merge failed: ".data ++ (exec (plainMergeCmd source)).error)) := by
  have hmc : mergeCmdFor strategy source = plainMergeCmd source := by
    simp [mergeCmdFor, h1, h2]
  simp only [merge_branch, hmc, if_neg hs, hc, if_neg h1]
  cases hmr : (exec (plainMergeCmd source)).success <;> simp

/-- C10 witness: strategy `octopus` runs checkout then a plain merge. -/
theorem merge_unknown_strategy_plain_witness :
    (merge_branch true allOk "a".data "main".data "octopus".data).1
        = [checkoutCmd "main".data, plainMergeCmd "a".data] :=
  (merge_unknown_strategy_plain allOk "a".data "main".data "octopus".data
    (by decide) (by decide) (by decide) (by decide)).1

/-- C7 counterexample: with source `srcbr`, target `tgtbr`, and a merge failing
with stderr `boom`, the abort message is exactly `Merge failed: boom`, which
contains neither the source nor the target branch name — against the claim
that the message includes both. -/
theorem merge_failed_message_counterexample :
    (merge_branch true (execStub (plainMergeCmd "srcbr".data) "boom".data)
        "srcbr".data "tgtbr".data "merge".data).2
      = MergeResult.err "Merge failed: boom".data ∧
    containsPat "srcbr".data "Merge failed: boom".data = false ∧
    containsPat "tgtbr".data "Merge failed: boom".data = false := by decide

/-- C7 amended: when the strategy-specific merge command fails, the
orchestrator aborts with the message `Merge failed: {captured error}`: it
includes the error text captured from the executor but not the branch names. -/
theorem merge_failed_message (exec : Exec) (source target strategy : List Char)
    (hs : source ≠ [])
    (hc : (exec (checkoutCmd target)).success = true)
    (hm : (exec (mergeCmdFor strategy source)).success = false) :
    (merge_branch true exec source target strategy).2
      = MergeResult.err ("Merge failed: ".data ++ (exec (mergeCmdFor strategy source)).error) := by
  simp [merge_branch, if_neg hs, hc, hm]

/-- C7 witness: a concrete failing plain merge aborts with the captured text. -/
theorem merge_failed_message_witness :
    (merge_branch true (execStub (plainMergeCmd "a".data) "conflict".data)
        "a".data "b".data "merge".data).2
      = MergeResult.err ("Merge failed: ".data
          ++ (execStub (plainMergeCmd "a".data) "conflict".data
                (mergeCmdFor "merge".data "a".data)).error) :=
  merge_failed_message (execStub (plainMergeCmd "a".data) "conflict".data)
    "a".data "b".data "merge".data (by decide) (by decide) (by decide)

/-- C6 counterexample: `bad branch` violates the branch-name validity rule, yet
the merge request is not rejected: executor commands are issued and the merge
completes, against the claim that invalid names are rejected before any
executor call. -/
theorem merge_no_validation_counterexample :
    validBranchName "bad branch".data = false ∧
    (merge_branch true allOk "bad branch".data "main".data "merge".data).1 ≠ [] ∧
    (merge_branch true allOk "bad branch".data "main".data "merge".data).2
      = MergeResult.ok "bad branch".data "main".data "merge".data [] := by decide

/-- C6 amended: the merge orchestrator validates only that the source branch is
non-empty and that the path is a repository, both before any executor call;
branch names are never checked against the branch-name validity rule, and with
a non-empty source the first executor command is always the checkout of the
target, regardless of name validity. -/
theorem merge_validation_amended (exec : Exec) (source target strategy : List Char) :
    (source = [] → merge_branch true exec source target strategy
        = ([], MergeResult.err "Source branch required".data)) ∧
    (source ≠ [] → merge_branch false exec source target strategy
        = ([], MergeResult.err "Not a git repository".data)) ∧
    (source ≠ [] →
      (merge_branch true exec source target strategy).1.head? = some (checkoutCmd target)) := by
  refine ⟨fun h => by simp [merge_branch, h], fun h => by simp [merge_branch, h], fun h => ?_⟩
  simp only [merge_branch, if_neg h]
  cases h1 : (exec (checkoutCmd target)).success
  · simp
  · cases h2 : (exec (mergeCmdFor strategy source)).success
    · simp
    · by_cases h3 : strategy = "squash".data
      · simp only [h3]
        cases h4 : (exec (squashCommitCmd source target)).success <;> simp
      · simp [h3]

/-- C6 witness: with a non-empty source the first issued command is the
checkout of the target branch. -/
theorem merge_validation_amended_witness :
    (merge_branch true allOk "a".data "main".data "merge".data).1.head?
      = some (checkoutCmd "main".data) :=
  (merge_validation_amended allOk "a".data "main".data "merge".data).2.2 (by decide)

/-- C1 counterexample: with tag listing `vx, v1.2.3` the specification-side
resolution yields 1.2.3 (the malformed `vx` excluded), but the implementation
fails with an invalid-format error; with listing `v1.0.0, v2.0.0` the maximum
is 2.0.0, but the implementation returns 1.0.0 (the first listed `v` tag). -/
theorem resolve_current_counterexample :
    resolveCurrent ["vx".data, "v1.2.3".data]
        = ResolveResult.err ("Invalid current version format: vx".data) ∧
    resolveCurrentSpec ["vx".data, "v1.2.3".data] = ⟨1, 2, 3⟩ ∧
    resolveCurrent ["v1.0.0".data, "v2.0.0".data] = ResolveResult.ok ⟨1, 0, 0⟩ ∧
    resolveCurrentSpec ["v1.0.0".data, "v2.0.0".data] = ⟨2, 0, 0⟩ := by decide

/-- C1 amended: version resolution considers only the first listed tag that
starts with `v` (relying on the executor's ordering rather than computing a
maximum itself); it returns 0.0.0 when no tag starts with `v`, parses the
first `v` tag when it matches the version pattern, and fails with an
invalid-format error — rather than excluding the tag — when it does not. -/
theorem resolve_current_amended (lines : List (List Char)) :
    (lines.filter startsWithV = [] → resolveCurrent lines = ResolveResult.ok ⟨0, 0, 0⟩) ∧
    (∀ t rest : _, ∀ v : SemanticVersion, lines.filter startsWithV = t :: rest →
      parseVersion t = some v → resolveCurrent lines = ResolveResult.ok v) ∧
    (∀ t rest : _, lines.filter startsWithV = t :: rest → parseVersion t = none →
      resolveCurrent lines
        = ResolveResult.err ("Invalid current version format: ".data ++ t)) := by
  refine ⟨fun h => ?_, fun t rest v h hp => ?_, fun t rest h hp => ?_⟩
  · simp only [resolveCurrent, resolveCurrentTag, h]
    rfl
  · simp only [resolveCurrent, resolveCurrentTag, h, hp]
  · simp only [resolveCurrent, resolveCurrentTag, h, hp]

/-- C1 witness: a single well-formed tag resolves to its parsed version. -/
theorem resolve_current_amended_witness :
    resolveCurrent ["v1.2.3".data] = ResolveResult.ok ⟨1, 2, 3⟩ :=
  (resolve_current_amended ["v1.2.3".data]).2.1 "v1.2.3".data [] ⟨1, 2, 3⟩
    (by decide) (by decide)

/-! ## Lemmas: status aggregation -/

theorem splitNl_ne_nil (s : List Char) : splitNl s ≠ [] := by
  cases s with
  | nil => simp [splitNl]
  | cons c rest =>
    simp only [splitNl]
    cases h : splitNl rest with
    | nil => simp
    | cons l ls => by_cases hc : c = '\n' <;> simp [hc]

/-- C5 counterexample: the status line `XY foo` has an unrecognized prefix: it
lands in none of the four buckets and the recognized-line count is zero, yet
`clean` is false — against the claim that `clean` is true whenever the
filtered count is zero. -/
theorem repo_status_clean_counterexample :
    (get_repo_status_changes "XY foo".data).1 = ⟨[], [], [], []⟩ ∧
    ((splitNl "XY foo".data).filter isRecognizedLine).length = 0 ∧
    (get_repo_status_changes "XY foo".data).2 = false := by decide

/-- C5 amended: `clean` is true iff the raw status output is empty (the
unfiltered line count is zero); a line with an unrecognized two-character
prefix is still dropped silently from all four buckets, but it does count
against `clean`. -/
theorem repo_status_clean_amended (output : List Char) :
    ((get_repo_status_changes output).2 = true ↔ output = []) ∧
    (∀ lines : List (List Char), (∀ l ∈ lines, isRecognizedLine l = false) →
      classifyChanges lines = ⟨[], [], [], []⟩) := by
  constructor
  · unfold get_repo_status_changes
    by_cases h : output.isEmpty
    · simp only [h, if_pos rfl]
      simp [List.isEmpty_iff.mp h]
    · have h1 : output ≠ [] := fun he => by simp [he] at h
      simp only [if_neg (by simpa using h1)]
      simp [h1, List.isEmpty_iff, splitNl_ne_nil output]
  · intro lines hl
    have hm : ∀ l ∈ lines, ¬(" M".data.isPrefixOf l = true) := by
      intro l hmem hp
      have := hl l hmem
      simp [isRecognizedLine, hp] at this
    have ha : ∀ l ∈ lines, ¬("A ".data.isPrefixOf l = true) := by
      intro l hmem hp
      have := hl l hmem
      simp [isRecognizedLine, hp] at this
    have hd : ∀ l ∈ lines, ¬(" D".data.isPrefixOf l = true) := by
      intro l hmem hp
      have := hl l hmem
      simp [isRecognizedLine, hp] at this
    have hu : ∀ l ∈ lines, ¬("??".data.isPrefixOf l = true) := by
      intro l hmem hp
      have := hl l hmem
      simp [isRecognizedLine, hp] at this
    simp [classifyChanges, List.filter_eq_nil_iff.mpr hm, List.filter_eq_nil_iff.mpr ha,
      List.filter_eq_nil_iff.mpr hd, List.filter_eq_nil_iff.mpr hu]

/-- C5 witness: the clean flag matches output emptiness on a concrete line, and
a list of only-unrecognized lines classifies to four empty buckets. -/
theorem repo_status_clean_amended_witness :
    ((get_repo_status_changes "XY foo".data).2 = true ↔ "XY foo".data = []) ∧
    classifyChanges ["QZ bar".data] = ⟨[], [], [], []⟩ :=
  ⟨(repo_status_clean_amended "XY foo".data).1,
   (repo_status_clean_amended []).2 ["QZ bar".data] (by decide)⟩

/-- C9: a version-bump request whose explicit type is outside
{major, minor, patch, auto} is not rejected: no bump case applies, so the new
version equals the resolved current version, the release-tag command for that
same version is still attempted, and when the executor accepts it the request
reports success echoing the unknown type. -/
theorem version_bump_unknown_type (exec : Exec) (bt : List Char) (v : SemanticVersion)
    (h1 : bt ≠ "major".data) (h2 : bt ≠ "minor".data) (h3 : bt ≠ "patch".data)
    (h4 : bt ≠ "auto".data)
    (hp : parseVersion (currentTagOf exec) = some v) :
    bump v bt = v ∧
    (auto_version_bump true exec bt).1 = [tagListCmd, releaseTagCmd (renderVersion v)] ∧
    ((exec (releaseTagCmd (renderVersion v))).success = true →
      (auto_version_bump true exec bt).2
        = BumpResult.ok ⟨currentTagOf exec, renderVersion v, bt⟩) := by
  have hb : bump v bt = v := by simp [bump, h1, h2, h3]
  have he : effectiveBumpType exec bt = bt := by simp [effectiveBumpType, h4]
  refine ⟨hb, ?_, ?_⟩
  · simp only [auto_version_bump, hp, he, hb, if_neg h4]
    cases hg : (exec (releaseTagCmd (renderVersion v))).success <;> simp
  · intro hsucc
    simp only [auto_version_bump, hp, he, hb, if_neg h4, hsucc]
    simp

/-- C9 witness: with current tag `v1.2.3` and bump type `hotfix`, the request
succeeds and re-tags version 1.2.3. -/
theorem version_bump_unknown_type_witness :
    (auto_version_bump true (execTags "v1.2.3".data) "hotfix".data).2
      = BumpResult.ok ⟨currentTagOf (execTags "v1.2.3".data),
          renderVersion ⟨1, 2, 3⟩, "hotfix".data⟩ :=
  (version_bump_unknown_type (execTags "v1.2.3".data) "hotfix".data ⟨1, 2, 3⟩
    (by decide) (by decide) (by decide) (by decide) (by decide)).2.2 (by decide)

end GitBot
